import Mathlib

/-!
# Verification of the cacache-rs-sync storage engine

A shallow embedding of the content-addressable cache: the content store
(`src/content/{read,write,rm}.rs`), the keyed facade (`src/{get,put,rm}.rs`),
and models of the index store, error taxonomy and path derivation (whose
source files `index.rs`, `errors.rs`, `content/path.rs` are not in the tree;
they are modelled from the specification).

The cryptographic hash lives in the external `ssri` crate; the code treats it
as an opaque digest function, so the embedding is parameterised by a
`HashModel` (an algorithm-indexed digest function).  The filesystem is a
finite map from structured paths to file data; path derivation from a digest
is injective in reality (hex encoding), which the structured path type
reflects.
-/

/-- Abstract digest function: algorithm name → bytes → digest bytes.
The real implementation (the `ssri` crate) is external to this repository. -/
structure HashModel where
  digest : String → List Nat → List Nat

/-- The identity-digest model, used to evaluate the development on concrete
inputs; it is injective, like an ideal collision-free hash. -/
def idHash : HashModel := ⟨fun _ d => d⟩

/-- Subresource-integrity descriptor: a set of (algorithm, digest) pairs.
Text form and base64 are elided; the pairs carry the same information. -/
abbrev Sri := List (String × List Nat)

/-- Relative strength of a hash algorithm (`ssri` orders sha512 ≻ sha384 ≻
sha256); governs which pair of a descriptor derives the content path. -/
def algoStrength (a : String) : Nat :=
  if a = "sha512" then 3 else if a = "sha384" then 2
  else if a = "sha256" then 1 else 0

/-- The strongest (algorithm, digest) pair present in a descriptor. -/
def strongestPair (sri : Sri) : Option (String × List Nat) :=
  sri.foldl
    (fun acc p =>
      match acc with
      | none => some p
      | some q => if algoStrength q.1 < algoStrength p.1 then some p else acc)
    none

/-- A single-algorithm descriptor for `data` under `algo` (what
`IntegrityOpts::new().algorithm(algo)` + `input` + `result` produces). -/
def sriOf (H : HashModel) (algo : String) (data : List Nat) : Sri :=
  [(algo, H.digest algo data)]

/-- Source `Integrity::check(data)`: verify `data` under the strongest algorithm
present in the descriptor. -/
def sriCheck (H : HashModel) (sri : Sri) (data : List Nat) : Bool :=
  match strongestPair sri with
  | some (a, d) => H.digest a data = d
  | none => false

/-- The descriptor actually computed from `data` under the strongest
algorithm of `sri` (the "actual" half of an integrity-check failure). -/
def actualSri (H : HashModel) (sri : Sri) (data : List Nat) : Sri :=
  match strongestPair sri with
  | some (a, _) => [(a, H.digest a data)]
  | none => []

/-- Source `Integrity::matches(other)`: the two descriptors share at least one
(algorithm, digest) pair. -/
def sriMatches (sri other : Sri) : Bool :=
  sri.any (fun p => other.contains p)

/-- Bytes of a string key (UTF-8 elided; code points suffice for a model). -/
def strBytes (s : String) : List Nat :=
  s.data.map Char.toNat

/-- Structured filesystem paths.  Modelled from the spec: the on-disk layout
`<root>/content-v2/<algo>/<xx>/<yy>/<hex>`, `<root>/index-v5/<xx>/<yy>/<hex>`
(`content/path.rs` and the index path derivation are not in the tree).  The
hex split into directories is a bijective presentation of the digest, so a
constructor carrying the digest is faithful. -/
inductive FPath
  | content (cache : String) (algo : String) (digest : List Nat)
  | bucket (cache : String) (keyHash : List Nat)
  | external (dst : String)
deriving DecidableEq, Repr

/-- Source `path::content_path(cache, sri)`: derived from the strongest pair.
Modelled from the spec: `content/path.rs` is not in the tree. -/
def contentPath (cache : String) (sri : Sri) : FPath :=
  match strongestPair sri with
  | some (a, d) => FPath.content cache a d
  | none => FPath.content cache "sha256" []

/-- Index bucket path for a key: derived from SHA-256 of the key.
Modelled from the spec (§4.B bucket derivation). -/
def bucketPath (H : HashModel) (cache key : String) : FPath :=
  FPath.bucket cache (H.digest "sha256" (strBytes key))

/-- An index record.  Modelled from the spec (§3): `integrity = none` is a
tombstone.  Metadata JSON is opaque to every claim, kept as a string. -/
structure IndexEntry where
  key : String
  integrity : Option Sri
  time : Nat
  size : Option Nat
  metadata : Option String
deriving DecidableEq, Repr

/-- Contents of a file: raw bytes (content files, copies) or a list of index
records (bucket files; line serialisation with per-line checksums is
injective, so the record list is the faithful abstraction). -/
inductive FileData
  | bytes (b : List Nat)
  | entries (es : List IndexEntry)
deriving DecidableEq, Repr

/-- The filesystem: an association list from paths to file data. -/
abbrev FS := List (FPath × FileData)

def fsGet (fs : FS) (p : FPath) : Option FileData :=
  (fs.find? (fun e => e.1 = p)).map (·.2)

def fsSet (fs : FS) (p : FPath) (d : FileData) : FS :=
  (p, d) :: fs.filter (fun e => ¬ e.1 = p)

def fsDel (fs : FS) (p : FPath) : FS :=
  fs.filter (fun e => ¬ e.1 = p)

/-- The error taxonomy.  Modelled from the spec (§7): `errors.rs` is not in
the tree.  `Io` carries the offending path and the underlying kind. -/
inductive Err
  | EntryNotFound (root : String) (key : String)
  | IntegrityMismatch (expected : Sri) (actual : Sri)
  | SizeMismatch (expected : Nat) (actual : Nat)
  | Io (path : FPath) (kind : String)
deriving DecidableEq, Repr

/-! ## Content store (`src/content/`) -/

/-- From `write.rs`: `MAX_MMAP_SIZE = 1024 * 1024`. -/
def MAX_MMAP_SIZE : Nat := 1024 * 1024

/-- The content writer (`write.rs` `Writer`): incremental hasher state
(`builder`), the optional writable mapping (told by its length), and the
temp file contents.  `set_len` pre-sizes the file with zeros. -/
structure CWriter where
  cache : String
  algo : String
  hashInput : List Nat
  mmapLen : Option Nat
  tmpData : List Nat
deriving DecidableEq, Repr

/-- Source `Writer::new(cache, algo, size)`: the mapping is established when a size
is declared and is at most `MAX_MMAP_SIZE`; the temp file is then pre-sized. -/
def cwriterNew (cache : String) (algo : String) (size : Option Nat) : CWriter :=
  match size with
  | some n =>
      if n ≤ MAX_MMAP_SIZE then
        { cache, algo, hashInput := [], mmapLen := some n,
          tmpData := List.replicate n 0 }
      else
        { cache, algo, hashInput := [], mmapLen := none, tmpData := [] }
  | none => { cache, algo, hashInput := [], mmapLen := none, tmpData := [] }

/-- Source `<Writer as Write>::write(buf)`: feed the hasher, then either
`mmap.copy_from_slice(buf)` — which replaces the whole mapping and PANICS
(modelled as `none`) unless `buf.len() == mmap.len()` — or append to the
temp file.  Returns the count consumed. -/
def cwrite (w : CWriter) (buf : List Nat) : Option (CWriter × Nat) :=
  let w1 := { w with hashInput := w.hashInput ++ buf }
  match w.mmapLen with
  | some n =>
      if buf.length = n then some ({ w1 with tmpData := buf }, buf.length)
      else none
  | none => some ({ w1 with tmpData := w.tmpData ++ buf }, buf.length)

/-- The descriptor a writer's `close` would return (`builder.result()`). -/
def closeSri (H : HashModel) (w : CWriter) : Sri :=
  sriOf H w.algo w.hashInput

/-- Source `Writer::close`: finalize the hasher, persist (rename) the temp file to
the derived content path.  The rename outcome is an oracle: `none` means it
succeeded; `some e` means it failed with error `e`.  On failure the code
stats the destination: if something is there the close still succeeds; if
not, the *stat* error (NotFound at the content path) is propagated and the
original rename error is discarded. -/
def writerClose (H : HashModel) (w : CWriter) (renameErr : Option Err)
    (fs : FS) : FS × Except Err Sri :=
  let sri := closeSri H w
  let cp := contentPath w.cache sri
  match renameErr with
  | none => (fsSet fs cp (FileData.bytes w.tmpData), Except.ok sri)
  | some _ =>
      match fsGet fs cp with
      | some _ => (fs, Except.ok sri)
      | none => (fs, Except.error (Err.Io cp "NotFound"))

/-- Source `read.rs` `read(cache, sri)`: read the whole file at the derived path,
then `sri.check(data)`; integrity failure carries expected and actual. -/
def contentRead (H : HashModel) (fs : FS) (cache : String) (sri : Sri) :
    Except Err (List Nat) :=
  let cp := contentPath cache sri
  match fsGet fs cp with
  | some (FileData.bytes d) =>
      if sriCheck H sri d then Except.ok d
      else Except.error (Err.IntegrityMismatch sri (actualSri H sri d))
  | _ => Except.error (Err.Io cp "NotFound")

/-- Source `read.rs` `copy(cache, sri, to)`: file-level copy to the destination
FIRST, then re-read the source and verify; returns bytes copied. -/
def contentCopy (H : HashModel) (fs : FS) (cache : String) (sri : Sri)
    (dst : String) : FS × Except Err Nat :=
  let cp := contentPath cache sri
  match fsGet fs cp with
  | some (FileData.bytes d) =>
      let fs1 := fsSet fs (FPath.external dst) (FileData.bytes d)
      match fsGet fs1 cp with
      | some (FileData.bytes d2) =>
          if sriCheck H sri d2 then (fs1, Except.ok d.length)
          else (fs1, Except.error (Err.IntegrityMismatch sri (actualSri H sri d2)))
      | _ => (fs1, Except.error (Err.Io cp "NotFound"))
  | _ => (fs, Except.error (Err.Io cp "NotFound"))

/-- Source `read.rs` `has_content`: the derived path exists; no verification. -/
def hasContent (fs : FS) (cache : String) (sri : Sri) : Bool :=
  (fsGet fs (contentPath cache sri)).isSome

/-- Source `read.rs` `open`: open the file at the derived path for streaming; fails
with an I/O error when absent.  No verification happens at open. -/
structure SReader where
  sri : Sri
  fileData : List Nat
deriving DecidableEq, Repr

def contentOpen (fs : FS) (cache : String) (sri : Sri) :
    Except Err SReader :=
  let cp := contentPath cache sri
  match fsGet fs cp with
  | some (FileData.bytes d) => Except.ok { sri, fileData := d }
  | _ => Except.error (Err.Io cp "NotFound")

/-- Source `content/rm.rs` `rm`: unlink the derived path; NotFound is reported. -/
def contentRm (fs : FS) (cache : String) (sri : Sri) : FS × Except Err Unit :=
  let cp := contentPath cache sri
  match fsGet fs cp with
  | some _ => (fsDel fs cp, Except.ok ())
  | none => (fs, Except.error (Err.Io cp "NotFound"))

/-! ## Index store (modelled from the spec; `index.rs` is not in the tree) -/

/-- The effective-record fold step: among records whose `key` matches, keep
the greatest `time`, later file position winning ties (§4.B Lookup). -/
def effStep (key : String) (acc : Option IndexEntry) (e : IndexEntry) :
    Option IndexEntry :=
  if e.key = key then
    match acc with
    | none => some e
    | some b => if b.time ≤ e.time then some e else acc
  else acc

/-- The effective record for `key` among the bucket's records. -/
def effectiveEntry (key : String) (es : List IndexEntry) : Option IndexEntry :=
  es.foldl (effStep key) none

/-- What `index::find` hands back for a live record (the spec's `Metadata`):
like an `IndexEntry` but with the integrity guaranteed present. -/
structure Metadata where
  key : String
  integrity : Sri
  time : Nat
  size : Option Nat
  metadata : Option String
deriving DecidableEq, Repr

/-- Modelled from the spec: `index::find(cache, key)` — read the bucket,
keep the effective record; a tombstone (or no record, or no bucket) is
"not found". -/
def indexFind (H : HashModel) (fs : FS) (cache key : String) :
    Option Metadata :=
  match fsGet fs (bucketPath H cache key) with
  | some (FileData.entries es) =>
      match effectiveEntry key es with
      | some e =>
          match e.integrity with
          | some s =>
              some { key := e.key, integrity := s, time := e.time,
                     size := e.size, metadata := e.metadata }
          | none => none
      | none => none
  | _ => none

/-- Append one record to the bucket file (create it when absent). -/
def bucketAppend (H : HashModel) (fs : FS) (cache key : String)
    (e : IndexEntry) : FS :=
  let bp := bucketPath H cache key
  match fsGet fs bp with
  | some (FileData.entries es) => fsSet fs bp (FileData.entries (es ++ [e]))
  | _ => fsSet fs bp (FileData.entries [e])

/-- Writer options (`put.rs` `WriteOpts`). -/
structure WriteOpts where
  algorithm : Option String := none
  sri : Option Sri := none
  size : Option Nat := none
  time : Option Nat := none
  metadata : Option String := none
deriving DecidableEq, Repr

/-- Modelled from the spec: `index::insert(cache, key, opts)` — append a
record built from the key, the commit-time descriptor, `opts.time` or the
clock, size and metadata; return the descriptor. -/
def indexInsert (H : HashModel) (fs : FS) (cache key : String)
    (opts : WriteOpts) (now : Nat) : FS × Except Err Sri :=
  let e : IndexEntry :=
    { key, integrity := opts.sri, time := opts.time.getD now,
      size := opts.size, metadata := opts.metadata }
  (bucketAppend H fs cache key e,
   match opts.sri with
   | some s => Except.ok s
   | none => Except.error (Err.Io (bucketPath H cache key) "MissingSri"))

/-- Modelled from the spec: `index::delete(cache, key)` — append a tombstone
record with the current time. -/
def indexDelete (H : HashModel) (fs : FS) (cache key : String) (now : Nat) :
    FS :=
  bucketAppend H fs cache key
    { key, integrity := none, time := now, size := none, metadata := none }

/-! ## Facade (`src/put.rs`, `src/get.rs`, `src/rm.rs`) -/

/-- Source `put.rs` `Writer`: cache root, optional key, running byte count, the
content writer, and the options. -/
structure KWriter where
  cache : String
  key : Option String
  written : Nat
  writer : CWriter
  opts : WriteOpts
deriving DecidableEq, Repr

/-- Source `WriteOpts::open(cache, key)`: keyed writer over a fresh content writer
with the chosen (or default sha256) algorithm and the declared size. -/
def openKeyed (opts : WriteOpts) (cache key : String) : KWriter :=
  { cache, key := some key, written := 0,
    writer := cwriterNew cache (opts.algorithm.getD "sha256") opts.size,
    opts }

/-- Source `WriteOpts::open_hash(cache)`: like `open` but without a key. -/
def openHash (opts : WriteOpts) (cache : String) : KWriter :=
  { cache, key := none, written := 0,
    writer := cwriterNew cache (opts.algorithm.getD "sha256") opts.size,
    opts }

/-- Source `<put::Writer as Write>::write` / `write_all`: one underlying write call
consumes the whole buffer; the running count grows by the count consumed.
`none` is the content writer's panic. -/
def kwriteAll (kw : KWriter) (data : List Nat) : Option KWriter :=
  match cwrite kw.writer data with
  | some (cw, n) => some { kw with writer := cw, written := kw.written + n }
  | none => none

/-- Source `put.rs` `Writer::commit`: close the content writer; check the expected
integrity (first), then the expected size; keyed writers then insert the
index record, keyless ones return the computed descriptor. -/
def commitOp (H : HashModel) (kw : KWriter) (now : Nat)
    (renameErr : Option Err) (fs : FS) : FS × Except Err Sri :=
  match writerClose H kw.writer renameErr fs with
  | (fs1, Except.error e) => (fs1, Except.error e)
  | (fs1, Except.ok wsri) =>
      match kw.opts.sri with
      | some s =>
          if sriMatches s wsri then
            match kw.opts.size with
            | some n =>
                if n = kw.written then
                  match kw.key with
                  | some k => indexInsert H fs1 kw.cache k kw.opts now
                  | none => (fs1, Except.ok wsri)
                else (fs1, Except.error (Err.SizeMismatch n kw.written))
            | none =>
                match kw.key with
                | some k => indexInsert H fs1 kw.cache k kw.opts now
                | none => (fs1, Except.ok wsri)
          else (fs1, Except.error (Err.IntegrityMismatch s wsri))
      | none =>
          let opts1 := { kw.opts with sri := some wsri }
          match kw.opts.size with
          | some n =>
              if n = kw.written then
                match kw.key with
                | some k => indexInsert H fs1 kw.cache k opts1 now
                | none => (fs1, Except.ok wsri)
              else (fs1, Except.error (Err.SizeMismatch n kw.written))
          | none =>
              match kw.key with
              | some k => indexInsert H fs1 kw.cache k opts1 now
              | none => (fs1, Except.ok wsri)

/-- Source `put.rs` `write(cache, key, data)`: default options, write everything,
set the count to the data length, commit. -/
def writeOp (H : HashModel) (fs : FS) (cache key : String) (data : List Nat)
    (now : Nat) (renameErr : Option Err) : FS × Except Err Sri :=
  let kw0 := openKeyed { algorithm := some "sha256" } cache key
  match kwriteAll kw0 data with
  | some kw1 => commitOp H { kw1 with written := data.length } now renameErr fs
  | none => (fs, Except.error (Err.Io (FPath.external "panic") "Panic"))

/-- Source `put.rs` `write_hash(cache, data)`: sha256, declared size = data length,
keyless write and commit. -/
def writeHashOp (H : HashModel) (fs : FS) (cache : String) (data : List Nat)
    (now : Nat) (renameErr : Option Err) : FS × Except Err Sri :=
  let kw0 := openHash { algorithm := some "sha256", size := some data.length }
    cache
  match kwriteAll kw0 data with
  | some kw1 => commitOp H { kw1 with written := data.length } now renameErr fs
  | none => (fs, Except.error (Err.Io (FPath.external "panic") "Panic"))

/-- Source `get.rs` `read_hash_sync`. -/
def readHashSync (H : HashModel) (fs : FS) (cache : String) (sri : Sri) :
    Except Err (List Nat) :=
  contentRead H fs cache sri

/-- Source `get.rs` `read_sync`: look the key up in the index, then read by hash;
no live record is `EntryNotFound(cache, key)`. -/
def readSync (H : HashModel) (fs : FS) (cache key : String) :
    Except Err (List Nat) :=
  match indexFind H fs cache key with
  | some entry => readHashSync H fs cache entry.integrity
  | none => Except.error (Err.EntryNotFound cache key)

/-- Source `get.rs` `copy_hash_sync`. -/
def copyHashSync (H : HashModel) (fs : FS) (cache : String) (sri : Sri)
    (dst : String) : FS × Except Err Nat :=
  contentCopy H fs cache sri dst

/-- Source `get.rs` `copy_sync`. -/
def copySync (H : HashModel) (fs : FS) (cache key dst : String) :
    FS × Except Err Nat :=
  match indexFind H fs cache key with
  | some entry => copyHashSync H fs cache entry.integrity dst
  | none => (fs, Except.error (Err.EntryNotFound cache key))

/-- Source `get.rs` `SyncReader::open_hash`. -/
def readerOpenHash (fs : FS) (cache : String) (sri : Sri) :
    Except Err SReader :=
  contentOpen fs cache sri

/-- Source `get.rs` `SyncReader::open`. -/
def readerOpen (H : HashModel) (fs : FS) (cache key : String) :
    Except Err SReader :=
  match indexFind H fs cache key with
  | some entry => readerOpenHash fs cache entry.integrity
  | none => Except.error (Err.EntryNotFound cache key)

/-- Source `get.rs` `metadata_sync`. -/
def metadataSync (H : HashModel) (fs : FS) (cache key : String) :
    Option Metadata :=
  indexFind H fs cache key

/-- Source `get.rs` `exists_sync`. -/
def existsSync (fs : FS) (cache : String) (sri : Sri) : Bool :=
  hasContent fs cache sri

/-- Source `rm.rs` `remove_sync`: delete the index entry (tombstone); content is
left in the cache. -/
def removeSync (H : HashModel) (fs : FS) (cache key : String) (now : Nat) :
    FS :=
  indexDelete H fs cache key now

/-- Source `rm.rs` `remove_hash_sync`: remove the content file. -/
def removeHashSync (fs : FS) (cache : String) (sri : Sri) :
    FS × Except Err Unit :=
  contentRm fs cache sri

/-! ## Concrete fixtures for witnesses and counterexamples -/

/-- The records of the bucket a key hashes to (empty when absent). -/
def bucketEntries (H : HashModel) (fs : FS) (cache key : String) :
    List IndexEntry :=
  match fsGet fs (bucketPath H cache key) with
  | some (FileData.entries es) => es
  | _ => []

/-- The sha256 descriptor of `b"hello"` under the identity-digest model. -/
def sriHello : Sri := [("sha256", strBytes "hello")]

/-- A live index record for key `"k"` pointing at `sriHello`. -/
def entryK : IndexEntry :=
  { key := "k", integrity := some sriHello, time := 1,
    size := none, metadata := none }

/-- A cache state whose content file for `sriHello` was tampered with
(it holds `b"hellp"`, one character off). -/
def fsTampered : FS :=
  [(bucketPath idHash "c" "k", FileData.entries [entryK]),
   (contentPath "c" sriHello, FileData.bytes (strBytes "hellp"))]

/-- Options `WriteOpts.size(5).integrity(sri_of_hello)` (seed scenario 4). -/
def optsScenario4 : WriteOpts := { sri := some sriHello, size := some 5 }

/-- A content writer about to close (hash input and temp file `b"hi"`). -/
def wPending : CWriter :=
  { cache := "c", algo := "sha256", hashInput := strBytes "hi",
    mmapLen := none, tmpData := strBytes "hi" }

/-- A concrete rename failure, distinguishable from a stat failure. -/
def renameDenied : Err := Err.Io (FPath.external "tmp") "PermissionDenied"

/-- A cache state holding a corrupted content file for `sriHello` only. -/
def fsCorruptOnly : FS :=
  [(contentPath "c" sriHello, FileData.bytes (strBytes "hellp"))]

/-- Equality of operation results is decidable (for concrete evaluation). -/
instance {ε α : Type} [DecidableEq ε] [DecidableEq α] :
    DecidableEq (Except ε α) := fun x y =>
  match x, y with
  | Except.ok a, Except.ok b =>
      if h : a = b then isTrue (by rw [h])
      else isFalse (by intro hc; cases hc; exact h rfl)
  | Except.error a, Except.error b =>
      if h : a = b then isTrue (by rw [h])
      else isFalse (by intro hc; cases hc; exact h rfl)
  | Except.ok _, Except.error _ => isFalse (by intro hc; cases hc)
  | Except.error _, Except.ok _ => isFalse (by intro hc; cases hc)

/-! ## Helper lemmas -/

theorem fsGet_fsSet_self (fs : FS) (p : FPath) (d : FileData) :
    fsGet (fsSet fs p d) p = some d := by
  simp [fsGet, fsSet]

theorem find_filter_ne (fs : FS) (p q : FPath) (h : q ≠ p) :
    List.find? (fun e => e.1 = q) (fs.filter (fun e => ¬ e.1 = p)) =
    List.find? (fun e => e.1 = q) fs := by
  induction fs with
  | nil => rfl
  | cons hd tl ih =>
    rw [List.filter_cons]
    by_cases hh : hd.1 = p
    · have hq : ¬ hd.1 = q := fun hc => h (hc ▸ hh)
      rw [if_neg (by simp [hh]), ih, List.find?_cons_of_neg _ (by simp [hq])]
    · rw [if_pos (by simp [hh])]
      by_cases hq : hd.1 = q
      · rw [List.find?_cons_of_pos _ (by simp [hq]),
          List.find?_cons_of_pos _ (by simp [hq])]
      · rw [List.find?_cons_of_neg _ (by simp [hq]),
          List.find?_cons_of_neg _ (by simp [hq]), ih]

theorem fsGet_fsSet_ne (fs : FS) (p q : FPath) (d : FileData) (h : q ≠ p) :
    fsGet (fsSet fs p d) q = fsGet fs q := by
  have hpq : ¬ ((p, d).1 = q) := fun hc => h hc.symm
  simp only [fsGet, fsSet]
  rw [List.find?_cons_of_neg _ (by simp [hpq]), find_filter_ne fs p q h]

theorem fsGet_fsDel_self (fs : FS) (p : FPath) :
    fsGet (fsDel fs p) p = none := by
  induction fs with
  | nil => rfl
  | cons hd tl ih =>
    simp only [fsDel, List.filter_cons]
    by_cases hh : hd.1 = p
    · rw [if_neg (by simp [hh])]
      exact ih
    · simp only [fsGet] at ih ⊢
      rw [if_pos (by simp [hh]), List.find?_cons_of_neg _ (by simp [hh])]
      exact ih

theorem fsGet_fsDel_ne (fs : FS) (p q : FPath) (h : q ≠ p) :
    fsGet (fsDel fs p) q = fsGet fs q := by
  simp only [fsGet, fsDel]
  rw [find_filter_ne fs p q h]

theorem effStep_foldl_cases (key : String) (es : List IndexEntry)
    (acc : Option IndexEntry) :
    es.foldl (effStep key) acc = acc ∨
    ∃ b, es.foldl (effStep key) acc = some b ∧ b ∈ es ∧ b.key = key := by
  induction es generalizing acc with
  | nil => left; rfl
  | cons e tl ih =>
    rw [List.foldl_cons]
    rcases ih (effStep key acc e) with hsame | ⟨b, hb, hmem, hkey⟩
    · rw [hsame]
      by_cases he : e.key = key
      · unfold effStep
        rw [if_pos he]
        cases acc with
        | none => exact Or.inr ⟨e, rfl, List.mem_cons_self e tl, he⟩
        | some b =>
          by_cases ht : b.time ≤ e.time
          · exact Or.inr ⟨e, by simp [ht], List.mem_cons_self e tl, he⟩
          · left; simp [ht]
      · left; unfold effStep; rw [if_neg he]
    · exact Or.inr ⟨b, hb, List.mem_cons_of_mem e hmem, hkey⟩

theorem effectiveEntry_append (key : String) (es : List IndexEntry)
    (e : IndexEntry) (he : e.key = key)
    (h : ∀ x ∈ es, x.key = key → x.time ≤ e.time) :
    effectiveEntry key (es ++ [e]) = some e := by
  unfold effectiveEntry
  rw [List.foldl_append]
  rcases effStep_foldl_cases key es none with hc | ⟨b, hb, hmem, hkey⟩
  · rw [hc]
    show effStep key none e = some e
    unfold effStep
    rw [if_pos he]
  · rw [hb]
    show effStep key (some b) e = some e
    unfold effStep
    rw [if_pos he]
    simp [h b hmem hkey]

theorem contentPath_ne_bucket (cache : String) (sri : Sri) (c' : String)
    (kh : List Nat) : contentPath cache sri ≠ FPath.bucket c' kh := by
  unfold contentPath
  rcases hsp : strongestPair sri with _ | ⟨a, d⟩ <;> simp

theorem contentPath_ne_external (cache : String) (sri : Sri) (dst : String) :
    contentPath cache sri ≠ FPath.external dst := by
  unfold contentPath
  rcases hsp : strongestPair sri with _ | ⟨a, d⟩ <;> simp

theorem bucketPath_ne_contentPath (H : HashModel) (cache key : String)
    (c' : String) (sri : Sri) : bucketPath H cache key ≠ contentPath c' sri := by
  intro hc
  exact contentPath_ne_bucket c' sri cache (H.digest "sha256" (strBytes key))
    hc.symm

theorem strongestPair_sriOf (H : HashModel) (a : String) (d : List Nat) :
    strongestPair (sriOf H a d) = some (a, H.digest a d) := rfl

theorem sriCheck_sriOf (H : HashModel) (a : String) (d : List Nat) :
    sriCheck H (sriOf H a d) d = true := by
  simp [sriCheck, strongestPair_sriOf]

/-- The record `write(cache, key, data)` appends on success. -/
def writtenEntry (H : HashModel) (key : String) (data : List Nat) (now : Nat) :
    IndexEntry :=
  { key, integrity := some (sriOf H "sha256" data), time := now,
    size := none, metadata := none }

theorem writeOp_eq (H : HashModel) (fs : FS) (cache key : String)
    (data : List Nat) (now : Nat) :
    writeOp H fs cache key data now none =
      (bucketAppend H
        (fsSet fs (contentPath cache (sriOf H "sha256" data))
          (FileData.bytes data))
        cache key (writtenEntry H key data now),
       Except.ok (sriOf H "sha256" data)) := by
  simp [writeOp, openKeyed, cwriterNew, kwriteAll, cwrite, commitOp,
    writerClose, closeSri, sriOf, indexInsert, writtenEntry, Option.getD]

theorem writeHashOp_eq (H : HashModel) (fs : FS) (cache : String)
    (data : List Nat) (now : Nat) :
    writeHashOp H fs cache data now none =
      (fsSet fs (contentPath cache (sriOf H "sha256" data))
        (FileData.bytes data),
       Except.ok (sriOf H "sha256" data)) := by
  by_cases hle : data.length ≤ MAX_MMAP_SIZE
  · simp [writeHashOp, openHash, cwriterNew, hle, kwriteAll, cwrite,
      commitOp, writerClose, closeSri, sriOf]
  · simp [writeHashOp, openHash, cwriterNew, hle, kwriteAll, cwrite,
      commitOp, writerClose, closeSri, sriOf]

theorem fsGet_bucketAppend_ne (H : HashModel) (fs : FS) (cache key : String)
    (e : IndexEntry) (p : FPath) (h : p ≠ bucketPath H cache key) :
    fsGet (bucketAppend H fs cache key e) p = fsGet fs p := by
  unfold bucketAppend
  rcases hg : fsGet fs (bucketPath H cache key) with _ | d
  · simp only [hg]
    exact fsGet_fsSet_ne fs _ p _ h
  · cases d with
    | bytes b => simp only [hg]; exact fsGet_fsSet_ne fs _ p _ h
    | entries es => simp only [hg]; exact fsGet_fsSet_ne fs _ p _ h

theorem bucketEntries_bucketAppend (H : HashModel) (fs : FS)
    (cache key : String) (e : IndexEntry) :
    bucketEntries H (bucketAppend H fs cache key e) cache key =
      bucketEntries H fs cache key ++ [e] := by
  unfold bucketEntries bucketAppend
  rcases hg : fsGet fs (bucketPath H cache key) with _ | d
  · simp only [hg, fsGet_fsSet_self, List.nil_append]
  · cases d with
    | bytes b => simp only [hg, fsGet_fsSet_self, List.nil_append]
    | entries es => simp only [hg, fsGet_fsSet_self]

theorem bucketEntries_fsSet_ne (H : HashModel) (fs : FS) (cache key : String)
    (p : FPath) (d : FileData) (h : bucketPath H cache key ≠ p) :
    bucketEntries H (fsSet fs p d) cache key = bucketEntries H fs cache key := by
  unfold bucketEntries
  rw [fsGet_fsSet_ne fs p _ d h]

theorem indexFind_bucketAppend (H : HashModel) (fs : FS) (cache key : String)
    (e : IndexEntry) (he : e.key = key)
    (hb : ∀ x ∈ bucketEntries H fs cache key, x.key = key → x.time ≤ e.time) :
    indexFind H (bucketAppend H fs cache key e) cache key =
      match e.integrity with
      | some s => some { key := e.key, integrity := s, time := e.time,
                         size := e.size, metadata := e.metadata }
      | none => none := by
  unfold indexFind bucketAppend
  unfold bucketEntries at hb
  rcases hg : fsGet fs (bucketPath H cache key) with _ | d
  · simp only [hg, fsGet_fsSet_self]
    have heff : effectiveEntry key ([] ++ [e]) = some e :=
      effectiveEntry_append key [] e he (by intro x hx; cases hx)
    rw [List.nil_append] at heff
    rw [heff]
  · cases d with
    | bytes b =>
        simp only [hg, fsGet_fsSet_self]
        have heff : effectiveEntry key ([] ++ [e]) = some e :=
          effectiveEntry_append key [] e he (by intro x hx; cases hx)
        rw [List.nil_append] at heff
        rw [heff]
    | entries es =>
        simp only [hg] at hb
        simp only [hg, fsGet_fsSet_self]
        rw [effectiveEntry_append key es e he hb]

/-! ## Claims -/

/-- C1: when the on-disk content file for the descriptor `m.integrity` of the
live record under a key has been altered so that it no longer verifies
(`sriCheck` fails on its bytes), `read` by key and `read_hash` both fail with
`IntegrityMismatch`, while `exists` still returns `true`. -/
theorem C1_tampered_read_integrity_mismatch (H : HashModel) (fs : FS)
    (cache key : String) (m : Metadata) (b' : List Nat)
    (hfind : indexFind H fs cache key = some m)
    (hfile : fsGet fs (contentPath cache m.integrity) =
      some (FileData.bytes b'))
    (hbad : sriCheck H m.integrity b' = false) :
    readSync H fs cache key = Except.error
      (Err.IntegrityMismatch m.integrity (actualSri H m.integrity b')) ∧
    readHashSync H fs cache m.integrity = Except.error
      (Err.IntegrityMismatch m.integrity (actualSri H m.integrity b')) ∧
    existsSync fs cache m.integrity = true := by
  refine ⟨?_, ?_, ?_⟩
  · simp only [readSync, hfind, readHashSync, contentRead, hfile, hbad]
    simp
  · simp only [readHashSync, contentRead, hfile, hbad]
    simp
  · simp only [existsSync, hasContent, hfile, Option.isSome_some]

/-- C1 witness: a concrete cache whose content file for `sriHello` holds
`b"hellp"` instead of `b"hello"`. -/
theorem C1_tampered_read_integrity_mismatch_witness :
    readSync idHash fsTampered "c" "k" = Except.error
      (Err.IntegrityMismatch sriHello
        (actualSri idHash sriHello (strBytes "hellp"))) ∧
    readHashSync idHash fsTampered "c" sriHello = Except.error
      (Err.IntegrityMismatch sriHello
        (actualSri idHash sriHello (strBytes "hellp"))) ∧
    existsSync fsTampered "c" sriHello = true :=
  C1_tampered_read_integrity_mismatch idHash fsTampered "c" "k"
    { key := "k", integrity := sriHello, time := 1, size := none,
      metadata := none }
    (strBytes "hellp") (by decide) (by decide) (by decide)

/-- C7: with no live index record for the key, `read`, `copy` and the
streaming reader's `open` all fail with `EntryNotFound(root, key)`. -/
theorem C7_no_record_entry_not_found (H : HashModel) (fs : FS)
    (cache key dst : String)
    (hfind : indexFind H fs cache key = none) :
    readSync H fs cache key = Except.error (Err.EntryNotFound cache key) ∧
    (copySync H fs cache key dst).2 =
      Except.error (Err.EntryNotFound cache key) ∧
    readerOpen H fs cache key = Except.error (Err.EntryNotFound cache key) := by
  refine ⟨?_, ?_, ?_⟩
  · simp only [readSync, hfind]
  · simp only [copySync, hfind]
  · simp only [readerOpen, hfind]

/-- C7 witness: the empty cache has no record for `"k"`. -/
theorem C7_no_record_entry_not_found_witness :
    readSync idHash [] "c" "k" = Except.error (Err.EntryNotFound "c" "k") ∧
    (copySync idHash [] "c" "k" "d").2 =
      Except.error (Err.EntryNotFound "c" "k") ∧
    readerOpen idHash [] "c" "k" = Except.error (Err.EntryNotFound "c" "k") :=
  C7_no_record_entry_not_found idHash [] "c" "k" "d" (by decide)

/-- C10: `copy_hash` copies the file to the destination before re-reading and
verifying the source, so on an `IntegrityMismatch` failure the destination
file exists and holds the unverified copied bytes. -/
theorem C10_copy_writes_dst_before_verify (H : HashModel) (fs : FS)
    (cache : String) (sri : Sri) (dst : String) (d : List Nat)
    (hfile : fsGet fs (contentPath cache sri) = some (FileData.bytes d))
    (hbad : sriCheck H sri d = false) :
    copyHashSync H fs cache sri dst =
      (fsSet fs (FPath.external dst) (FileData.bytes d),
       Except.error (Err.IntegrityMismatch sri (actualSri H sri d))) ∧
    fsGet (copyHashSync H fs cache sri dst).1 (FPath.external dst) =
      some (FileData.bytes d) := by
  have hne : FPath.external dst ≠ contentPath cache sri :=
    fun hc => contentPath_ne_external cache sri dst hc.symm
  have hget : fsGet (fsSet fs (FPath.external dst) (FileData.bytes d))
      (contentPath cache sri) = some (FileData.bytes d) := by
    rw [fsGet_fsSet_ne fs _ _ _ (fun hc => hne hc.symm)]
    exact hfile
  have heq : copyHashSync H fs cache sri dst =
      (fsSet fs (FPath.external dst) (FileData.bytes d),
       Except.error (Err.IntegrityMismatch sri (actualSri H sri d))) := by
    simp only [copyHashSync, contentCopy, hfile, hget, hbad]
    simp
  refine ⟨heq, ?_⟩
  rw [heq]
  exact fsGet_fsSet_self fs _ _

/-- C10 witness: copying the corrupted `sriHello` content file leaves the
copied bytes at the destination while the copy reports the mismatch. -/
theorem C10_copy_writes_dst_before_verify_witness :
    copyHashSync idHash fsCorruptOnly "c" sriHello "d" =
      (fsSet fsCorruptOnly (FPath.external "d")
        (FileData.bytes (strBytes "hellp")),
       Except.error (Err.IntegrityMismatch sriHello
         (actualSri idHash sriHello (strBytes "hellp")))) ∧
    fsGet (copyHashSync idHash fsCorruptOnly "c" sriHello "d").1
      (FPath.external "d") = some (FileData.bytes (strBytes "hellp")) :=
  C10_copy_writes_dst_before_verify idHash fsCorruptOnly "c" sriHello "d"
    (strBytes "hellp") (by decide) (by decide)

/-- C2: `write(K, B)` succeeds and a subsequent `read(K)` returns exactly
`B`.  The records already in `K`'s bucket may not carry a time newer than
the write (the index keeps the newest record per key; the spec's sequential
reading of "after"). -/
theorem C2_write_then_read (H : HashModel) (fs : FS) (cache key : String)
    (data : List Nat) (now : Nat)
    (hb : ∀ e ∈ bucketEntries H fs cache key, e.key = key → e.time ≤ now) :
    (writeOp H fs cache key data now none).2 =
      Except.ok (sriOf H "sha256" data) ∧
    readSync H (writeOp H fs cache key data now none).1 cache key =
      Except.ok data := by
  rw [writeOp_eq]
  refine ⟨rfl, ?_⟩
  have hne : bucketPath H cache key ≠
      contentPath cache (sriOf H "sha256" data) :=
    bucketPath_ne_contentPath H cache key cache (sriOf H "sha256" data)
  have hb1 : ∀ x ∈ bucketEntries H
      (fsSet fs (contentPath cache (sriOf H "sha256" data))
        (FileData.bytes data)) cache key,
      x.key = key → x.time ≤ (writtenEntry H key data now).time := by
    intro x hx hk
    rw [bucketEntries_fsSet_ne H fs cache key _ _ hne] at hx
    exact hb x hx hk
  simp only [readSync]
  rw [indexFind_bucketAppend H _ cache key _ rfl hb1]
  simp only [writtenEntry, readHashSync, contentRead]
  rw [fsGet_bucketAppend_ne H _ cache key _ _ (Ne.symm hne),
    fsGet_fsSet_self]
  simp [sriCheck_sriOf]

/-- C2 witness: writing `b"hi"` under `"k"` into the empty cache, then
reading it back. -/
theorem C2_write_then_read_witness :
    (writeOp idHash [] "c" "k" (strBytes "hi") 1 none).2 =
      Except.ok (sriOf idHash "sha256" (strBytes "hi")) ∧
    readSync idHash (writeOp idHash [] "c" "k" (strBytes "hi") 1 none).1
      "c" "k" = Except.ok (strBytes "hi") :=
  C2_write_then_read idHash [] "c" "k" (strBytes "hi") 1 (by decide)

/-- C3: `write_hash(B)` succeeds, returning the descriptor of `B`, and
`read_hash` on that descriptor returns exactly `B`. -/
theorem C3_write_hash_then_read_hash (H : HashModel) (fs : FS)
    (cache : String) (data : List Nat) (now : Nat) :
    (writeHashOp H fs cache data now none).2 =
      Except.ok (sriOf H "sha256" data) ∧
    readHashSync H (writeHashOp H fs cache data now none).1 cache
      (sriOf H "sha256" data) = Except.ok data := by
  rw [writeHashOp_eq]
  refine ⟨rfl, ?_⟩
  simp only [readHashSync, contentRead]
  rw [fsGet_fsSet_self]
  simp [sriCheck_sriOf]

/-- C4 (code bug): with `WriteOpts.size(5).integrity(sri_of_hello)` the
declared size 5 establishes a 5-byte memory mapping, and the very first
write of the 11-byte body `b"hello world"` panics inside
`mmap.copy_from_slice` (source length 11 ≠ destination length 5) — commit is
never reached, so no `SizeMismatch(5, 11)` is produced. -/
theorem C4_scenario4_write_panics :
    kwriteAll (openHash optsScenario4 "c") (strBytes "hello world") = none ∧
    (openHash optsScenario4 "c").writer.mmapLen = some 5 := by
  decide

/-- C5 counterexample: when the rename fails and nothing exists at the
destination, the error handed to the caller is the `NotFound` I/O error from
statting the destination, not the original rename error. -/
theorem C5_original_error_not_reported :
    (writerClose idHash wPending (some renameDenied) []).2 ≠
      Except.error renameDenied ∧
    (writerClose idHash wPending (some renameDenied) []).2 =
      Except.error
        (Err.Io (contentPath "c" (closeSri idHash wPending)) "NotFound") := by
  decide

/-- C5 as amended: on a rename failure the commit is treated as success iff
a file exists at the destination content path (the filesystem is then left
unchanged); when nothing exists there, the error reported is the I/O
(`NotFound`) error from checking the destination — the original rename error
is discarded. -/
theorem C5_rename_failure_fallback (H : HashModel) (w : CWriter) (fs : FS)
    (e : Err) :
    writerClose H w (some e) fs =
      if (fsGet fs (contentPath w.cache (closeSri H w))).isSome then
        (fs, Except.ok (closeSri H w))
      else
        (fs, Except.error
          (Err.Io (contentPath w.cache (closeSri H w)) "NotFound")) := by
  simp only [writerClose]
  rcases hg : fsGet fs (contentPath w.cache (closeSri H w)) with _ | d <;>
    simp [hg]

/-- C6 (code bug): a writer opened with declared size 2 (≤ 1 MiB, so the
mapping is established with length 2) panics on the first of two 1-byte
writes — `copy_from_slice` requires the buffer to cover the whole mapping —
so successive writes cannot land at successive offsets. -/
theorem C6_mmap_successive_writes_panic :
    (cwriterNew "c" "sha256" (some 2)).mmapLen = some 2 ∧
    cwrite (cwriterNew "c" "sha256" (some 2)) [10] = none := by
  decide

/-- C8: after `write(K, B)` (at time `t1`, bucket holding nothing newer) and
`remove(K)` (at a later time `t2`), `read(K)` fails with `EntryNotFound`
while `read_hash` on the write's descriptor still returns `B`; the content
file at the derived path is untouched by the removal. -/
theorem C8_remove_preserves_content (H : HashModel) (fs : FS)
    (cache key : String) (data : List Nat) (t1 t2 : Nat)
    (hb : ∀ e ∈ bucketEntries H fs cache key, e.key = key → e.time ≤ t1)
    (ht : t1 ≤ t2) :
    readSync H
        (removeSync H (writeOp H fs cache key data t1 none).1 cache key t2)
        cache key = Except.error (Err.EntryNotFound cache key) ∧
    readHashSync H
        (removeSync H (writeOp H fs cache key data t1 none).1 cache key t2)
        cache (sriOf H "sha256" data) = Except.ok data ∧
    fsGet (removeSync H (writeOp H fs cache key data t1 none).1 cache key t2)
        (contentPath cache (sriOf H "sha256" data)) =
      fsGet (writeOp H fs cache key data t1 none).1
        (contentPath cache (sriOf H "sha256" data)) := by
  rw [writeOp_eq]
  have hne : bucketPath H cache key ≠
      contentPath cache (sriOf H "sha256" data) :=
    bucketPath_ne_contentPath H cache key cache (sriOf H "sha256" data)
  simp only [removeSync, indexDelete]
  have hb2 : ∀ x ∈ bucketEntries H
      (bucketAppend H
        (fsSet fs (contentPath cache (sriOf H "sha256" data))
          (FileData.bytes data)) cache key (writtenEntry H key data t1))
      cache key, x.key = key →
      x.time ≤ (IndexEntry.mk key none t2 none none).time := by
    intro x hx hk
    rw [bucketEntries_bucketAppend,
      bucketEntries_fsSet_ne H fs cache key _ _ hne] at hx
    rcases List.mem_append.mp hx with hx | hx
    · exact le_trans (hb x hx hk) ht
    · rcases List.mem_singleton.mp hx with rfl
      exact ht
  refine ⟨?_, ?_, ?_⟩
  · simp only [readSync]
    rw [indexFind_bucketAppend H _ cache key _ rfl hb2]
  · simp only [readHashSync, contentRead]
    rw [fsGet_bucketAppend_ne H _ cache key _ _ (Ne.symm hne),
      fsGet_bucketAppend_ne H _ cache key _ _ (Ne.symm hne),
      fsGet_fsSet_self]
    simp [sriCheck_sriOf]
  · rw [fsGet_bucketAppend_ne H _ cache key _ _ (Ne.symm hne)]

/-- C8 witness: write `b"hi"` under `"k"` at time 1 into the empty cache,
remove at time 2. -/
theorem C8_remove_preserves_content_witness :
    readSync idHash
        (removeSync idHash (writeOp idHash [] "c" "k" (strBytes "hi") 1 none).1
          "c" "k" 2) "c" "k" =
      Except.error (Err.EntryNotFound "c" "k") ∧
    readHashSync idHash
        (removeSync idHash (writeOp idHash [] "c" "k" (strBytes "hi") 1 none).1
          "c" "k" 2) "c" (sriOf idHash "sha256" (strBytes "hi")) =
      Except.ok (strBytes "hi") ∧
    fsGet (removeSync idHash
        (writeOp idHash [] "c" "k" (strBytes "hi") 1 none).1 "c" "k" 2)
        (contentPath "c" (sriOf idHash "sha256" (strBytes "hi"))) =
      fsGet (writeOp idHash [] "c" "k" (strBytes "hi") 1 none).1
        (contentPath "c" (sriOf idHash "sha256" (strBytes "hi"))) :=
  C8_remove_preserves_content idHash [] "c" "k" (strBytes "hi") 1 2
    (by decide) (by decide)

/-- C9: after `write(K, B)` (at time `t1`, bucket holding nothing newer) and
`remove_hash` on the write's descriptor, `exists` is false while
`metadata(K)` still returns the record (the bucket file is untouched), and a
subsequent `read(K)` fails at file open — an I/O error at the content path,
not `EntryNotFound`. -/
theorem C9_remove_hash_preserves_index (H : HashModel) (fs : FS)
    (cache key : String) (data : List Nat) (t1 : Nat)
    (hb : ∀ e ∈ bucketEntries H fs cache key, e.key = key → e.time ≤ t1) :
    existsSync
        (removeHashSync (writeOp H fs cache key data t1 none).1 cache
          (sriOf H "sha256" data)).1 cache (sriOf H "sha256" data) = false ∧
    metadataSync H
        (removeHashSync (writeOp H fs cache key data t1 none).1 cache
          (sriOf H "sha256" data)).1 cache key =
      some { key, integrity := sriOf H "sha256" data, time := t1,
             size := none, metadata := none } ∧
    readSync H
        (removeHashSync (writeOp H fs cache key data t1 none).1 cache
          (sriOf H "sha256" data)).1 cache key =
      Except.error (Err.Io (contentPath cache (sriOf H "sha256" data))
        "NotFound") ∧
    fsGet (removeHashSync (writeOp H fs cache key data t1 none).1 cache
          (sriOf H "sha256" data)).1 (bucketPath H cache key) =
      fsGet (writeOp H fs cache key data t1 none).1
        (bucketPath H cache key) := by
  rw [writeOp_eq]
  have hne : bucketPath H cache key ≠
      contentPath cache (sriOf H "sha256" data) :=
    bucketPath_ne_contentPath H cache key cache (sriOf H "sha256" data)
  have hb1 : ∀ x ∈ bucketEntries H
      (fsSet fs (contentPath cache (sriOf H "sha256" data))
        (FileData.bytes data)) cache key,
      x.key = key → x.time ≤ (writtenEntry H key data t1).time := by
    intro x hx hk
    rw [bucketEntries_fsSet_ne H fs cache key _ _ hne] at hx
    exact hb x hx hk
  have hc1 : fsGet
      (bucketAppend H
        (fsSet fs (contentPath cache (sriOf H "sha256" data))
          (FileData.bytes data)) cache key (writtenEntry H key data t1))
      (contentPath cache (sriOf H "sha256" data)) =
      some (FileData.bytes data) := by
    rw [fsGet_bucketAppend_ne H _ cache key _ _ (Ne.symm hne)]
    exact fsGet_fsSet_self _ _ _
  simp only [removeHashSync, contentRm, hc1]
  have hfind : indexFind H
      (fsDel (bucketAppend H
        (fsSet fs (contentPath cache (sriOf H "sha256" data))
          (FileData.bytes data)) cache key (writtenEntry H key data t1))
        (contentPath cache (sriOf H "sha256" data))) cache key =
      some { key, integrity := sriOf H "sha256" data, time := t1,
             size := none, metadata := none } := by
    unfold indexFind
    rw [fsGet_fsDel_ne _ _ _ hne]
    have := indexFind_bucketAppend H
      (fsSet fs (contentPath cache (sriOf H "sha256" data))
        (FileData.bytes data)) cache key (writtenEntry H key data t1) rfl hb1
    unfold indexFind at this
    exact this
  refine ⟨?_, ?_, ?_, ?_⟩
  · simp only [existsSync, hasContent, fsGet_fsDel_self, Option.isSome_none]
  · simp only [metadataSync]
    exact hfind
  · simp only [readSync, hfind, readHashSync, contentRead, fsGet_fsDel_self]
  · rw [fsGet_fsDel_ne _ _ _ hne]

/-- C9 witness: write `b"hi"` under `"k"` at time 1 into the empty cache,
then remove the content by hash. -/
theorem C9_remove_hash_preserves_index_witness :
    existsSync
        (removeHashSync (writeOp idHash [] "c" "k" (strBytes "hi") 1 none).1
          "c" (sriOf idHash "sha256" (strBytes "hi"))).1 "c"
        (sriOf idHash "sha256" (strBytes "hi")) = false ∧
    metadataSync idHash
        (removeHashSync (writeOp idHash [] "c" "k" (strBytes "hi") 1 none).1
          "c" (sriOf idHash "sha256" (strBytes "hi"))).1 "c" "k" =
      some { key := "k", integrity := sriOf idHash "sha256" (strBytes "hi"),
             time := 1, size := none, metadata := none } ∧
    readSync idHash
        (removeHashSync (writeOp idHash [] "c" "k" (strBytes "hi") 1 none).1
          "c" (sriOf idHash "sha256" (strBytes "hi"))).1 "c" "k" =
      Except.error
        (Err.Io (contentPath "c" (sriOf idHash "sha256" (strBytes "hi")))
          "NotFound") ∧
    fsGet (removeHashSync (writeOp idHash [] "c" "k" (strBytes "hi") 1 none).1
          "c" (sriOf idHash "sha256" (strBytes "hi"))).1
        (bucketPath idHash "c" "k") =
      fsGet (writeOp idHash [] "c" "k" (strBytes "hi") 1 none).1
        (bucketPath idHash "c" "k") :=
  C9_remove_hash_preserves_index idHash [] "c" "k" (strBytes "hi") 1
    (by decide)
